import Mathlib

/-!
Verification of the `ident` crate: a 100-bit identifier stored in a u128,
rendered as a fixed 22-character string over a 32-symbol alphabet with
separator characters at positions 6 and 15.

The Rust source (src/lib.rs) is shallowly embedded below: u128 values are
natural numbers with explicit reduction modulo 2 ^ 128 wherever the machine
arithmetic wraps, bit-masking with a low-bits mask is written as reduction
modulo the corresponding power of two, and fallible functions return Except.
-/

namespace Ident

/-- u128 modulus: arithmetic in the source is on u128 and wraps at this bound. -/
def U128 : Nat := 2 ^ 128

/-- const STR_LEN: usize = 22 -/
def STR_LEN : Nat := 22

/-- const SEP_IDX: [usize; 2] = [6, 15] -/
def SEP_IDX : List Nat := [6, 15]

/-- const RND_BITS: usize = 64 -/
def RND_BITS : Nat := 64

/-- const ID_BITS: usize = 100 -/
def ID_BITS : Nat := 100

/-- const SECOND_EPOCH: u128 = 1_577_836_800 -/
def SECOND_EPOCH : Nat := 1577836800

/-- const TIME_SHIFT: usize = 5 -/
def TIME_SHIFT : Nat := 5

/-- CHARS: the bytes of the alphabet string 0123456789abcdefghjkmnpqrstvwxyz
(32 ASCII byte values; the letters i, l, o, u are absent). -/
def CHARS : List Nat :=
  [48, 49, 50, 51, 52, 53, 54, 55, 56, 57,
   97, 98, 99, 100, 101, 102, 103, 104, 106, 107,
   109, 110, 112, 113, 114, 115, 116, 118, 119, 120, 121, 122]

/-- The separator byte, ASCII code of the hyphen character. -/
def SEP_BYTE : Nat := 45

/-- The error enum of the crate. -/
inductive Error where
  | Encode (id : Nat) : Error
  | IdStrFull (byte : Nat) (idx : Nat) : Error
  | InvalidDigit (byte : Nat) : Error
  | InvalidStrLen (len : Nat) : Error
deriving DecidableEq, Repr

/-- Scan of the alphabet list: first index at which byte b occurs, else -1.
This is the lookup semantics of the const-built DECODE_MAP array, whose
builder loop sets arr at index CHARS i to i for each i and leaves every
other entry at -1. -/
def decode_map_lookup : List Nat → Nat → Nat → Int
  | [], _, _ => -1
  | c :: rest, b, i => if c = b then (i : Int) else decode_map_lookup rest b (i + 1)

/-- const DECODE_MAP: [i8; 256]: maps a byte to its digit value, or -1. -/
def DECODE_MAP (b : Nat) : Int := decode_map_lookup CHARS b 0

/-- const fn map_byte(byte: u8) -> Result of u8, Error -/
def map_byte (byte : Nat) : Except Error Nat :=
  let mapped := DECODE_MAP byte
  if mapped = -1 ∨ mapped = -2 then .error (.InvalidDigit byte)
  else .ok mapped.toNat

/-- const MOST_SIGNIFICANT_POSITION: u128 = 32 << (5 * (STR_LEN - SEP_IDX.len() - 2)) -/
def MOST_SIGNIFICANT_POSITION : Nat := 32 * 2 ^ (5 * (STR_LEN - SEP_IDX.length - 2))

/-- The while-let loop inside decode: walks the input bytes, skips the
separator byte, accumulates digit times place with u128 wrapping arithmetic
(n += place.wrapping_mul(digit); place >>= 5). -/
def decodeLoop : List Nat → Nat → Nat → Except Error Nat
  | [], _, n => .ok n
  | byte :: rest, place, n =>
    if byte = SEP_BYTE then
      decodeLoop rest place n
    else
      match map_byte byte with
      | .error e => .error e
      | .ok digit => decodeLoop rest (place / 32) ((n + place * digit % U128) % U128)

/-- const fn decode(input: &[u8]) -> Result of u128, Error -/
def decode (input : List Nat) : Except Error Nat :=
  if input.length ≠ STR_LEN then .error (.InvalidStrLen input.length)
  else decodeLoop input MOST_SIGNIFICANT_POSITION 0

/-- const fn to_100bit(n: u128) -> u128, i.e. n & ID_MASK with
ID_MASK = (1 << ID_BITS) - 1: keep the low ID_BITS bits. -/
def to_100bit (n : Nat) : Nat := n % 2 ^ ID_BITS

/-- The while loop inside encode_array: for each non-separator index, write
the top five bits of the 100-bit window (n >> (ID_BITS - 5)) & 0b11111 as an
alphabet character and shift n left by five (wrapping at u128). -/
def encodeLoop (n : Nat) (buf : List Nat) (idx : Nat) : List Nat :=
  if idx < STR_LEN then
    if idx = SEP_IDX.getD 0 0 ∨ idx = SEP_IDX.getD 1 0 then
      encodeLoop n buf (idx + 1)
    else
      encodeLoop (n * 32 % U128)
        (buf.set idx (CHARS.getD (n / 2 ^ (ID_BITS - 5) % 32) 0)) (idx + 1)
  else buf
termination_by STR_LEN - idx
decreasing_by all_goals omega

/-- The initial buffer *b"000000-00000000-000000" as byte values. -/
def ZERO_BUF : List Nat :=
  [48, 48, 48, 48, 48, 48, 45, 48, 48, 48, 48, 48, 48, 48, 48, 45, 48, 48, 48, 48, 48, 48]

/-- const fn encode_array(n: u128) -> [u8; STR_LEN] -/
def encode_array (x : Nat) : List Nat :=
  let n := to_100bit x
  if n = 0 then ZERO_BUF else encodeLoop n ZERO_BUF 0

/-- pub struct Id(u128) -/
structure Id where
  val : Nat
deriving DecidableEq, Repr

/-- pub const fn from_u128(x: u128) -> Self { Self(x & ((1 << ID_BITS) - 1)) } -/
def Id.from_u128 (x : Nat) : Id := ⟨x % 2 ^ ID_BITS⟩

/-- impl From of u128 for Id: fn from(x: u128) -> Self { Self(x) } (no mask). -/
def Id.fromNative (x : Nat) : Id := ⟨x⟩

/-- impl FromStr for Id: Ok(Self(decode(s.as_bytes())?)) -/
def Id.from_str (s : List Nat) : Except Error Id := (decode s).map Id.mk

/-- const fn timestamp_from_unix_dur(dur) with the duration given as whole
milliseconds: ((millis - SECOND_EPOCH * 1000) << TIME_SHIFT) / 1000 on u128.
The u128 subtraction faults when millis is before the epoch (the crate
documents this panic), so the function is meaningful for millis at or after
the epoch; Nat subtraction truncates there. -/
def timestamp_from_unix_dur (millis : Nat) : Nat :=
  (millis - SECOND_EPOCH * 1000) * 2 ^ TIME_SHIFT % U128 / 1000

/-- Id::new() with its two ambient inputs (current unix time in milliseconds
and the drawn random u128) made explicit parameters:
x = (time << RND_BITS) | (rnd & RND_MASK). -/
def Id.new_at (millis rnd : Nat) : Id :=
  let time := timestamp_from_unix_dur millis
  ⟨(time * 2 ^ RND_BITS % U128) ||| (rnd % 2 ^ RND_BITS)⟩

/-- Exact-arithmetic variant of the decode loop: identical control flow to
decodeLoop, but the accumulation is unbounded natural arithmetic with no
reduction modulo 2 ^ 128. Comparing decodeLoop against this variant states
that the wrapping u128 accumulation in decode never actually wraps. -/
def decodeLoopExact : List Nat → Nat → Nat → Except Error Nat
  | [], _, n => .ok n
  | byte :: rest, place, n =>
    if byte = SEP_BYTE then
      decodeLoopExact rest place n
    else
      match map_byte byte with
      | .error e => .error e
      | .ok digit => decodeLoopExact rest (place / 32) (n + place * digit)

/-- decode with the exact-arithmetic loop in place of the wrapping one. -/
def decode_exact (input : List Nat) : Except Error Nat :=
  if input.length ≠ STR_LEN then .error (.InvalidStrLen input.length)
  else decodeLoopExact input MOST_SIGNIFICANT_POSITION 0


/-- Decidable equality for decode results, used by finite checks below. -/
instance : DecidableEq (Except Error Nat) := fun a b =>
  match a, b with
  | .ok x, .ok y =>
    if h : x = y then .isTrue (congrArg Except.ok h)
    else .isFalse fun hh => h (Except.ok.inj hh)
  | .error x, .error y =>
    if h : x = y then .isTrue (congrArg Except.error h)
    else .isFalse fun hh => h (Except.error.inj hh)
  | .ok _, .error _ => .isFalse fun hh => Except.noConfusion hh
  | .error _, .ok _ => .isFalse fun hh => Except.noConfusion hh

/-!
Theorems. First, helper lemmas about the digit table and the decode loop;
the claim theorems follow.
-/

/-- If a byte does not occur in the scanned list, the scan returns -1. -/
theorem decode_map_lookup_of_not_mem (l : List Nat) (b : Nat) (hb : b ∉ l) :
    ∀ i : Nat, decode_map_lookup l b i = -1 := by
  induction l with
  | nil => intro i; rfl
  | cons c rest ih =>
    intro i
    have h1 : ¬c = b := fun h => hb (h ▸ List.mem_cons_self c rest)
    rw [decode_map_lookup, if_neg h1]
    exact ih (fun h => hb (List.mem_cons_of_mem c h)) (i + 1)

/-- If a byte occurs in the scanned list, the scan returns the offset plus an
index below the list length. -/
theorem decode_map_lookup_of_mem (l : List Nat) (b : Nat) (hb : b ∈ l) :
    ∀ i : Nat, ∃ j, j < l.length ∧ decode_map_lookup l b i = ((i + j : Nat) : Int) := by
  induction l with
  | nil => cases hb
  | cons c rest ih =>
    intro i
    by_cases hc : c = b
    · exact ⟨0, by simp, by rw [decode_map_lookup, if_pos hc]; simp⟩
    · have hbr : b ∈ rest := by
        cases hb with
        | head => exact absurd rfl hc
        | tail _ h => exact h
      rcases ih hbr (i + 1) with ⟨j, hj, he⟩
      refine ⟨j + 1, by simpa using Nat.succ_lt_succ hj, ?_⟩
      rw [decode_map_lookup, if_neg hc, he]
      congr 1
      omega

/-- A byte in the alphabet maps to its digit, a value below 32. -/
theorem map_byte_ok_of_mem {b : Nat} (hb : b ∈ CHARS) :
    ∃ d, d < 32 ∧ map_byte b = .ok d := by
  rcases decode_map_lookup_of_mem CHARS b hb 0 with ⟨j, hj, he⟩
  refine ⟨j, by simpa [CHARS] using hj, ?_⟩
  unfold map_byte DECODE_MAP
  rw [he, if_neg (by omega)]
  simp

/-- A byte outside the alphabet is rejected with InvalidDigit. -/
theorem map_byte_err_of_not_mem {b : Nat} (hb : b ∉ CHARS) :
    map_byte b = .error (.InvalidDigit b) := by
  unfold map_byte DECODE_MAP
  rw [decode_map_lookup_of_not_mem CHARS b hb 0, if_pos (Or.inl rfl)]

/-- Every digit produced by map_byte is below 32. -/
theorem map_byte_lt {b d : Nat} (h : map_byte b = .ok d) : d < 32 := by
  by_cases hb : b ∈ CHARS
  · rcases map_byte_ok_of_mem hb with ⟨d2, hd2, he⟩
    rw [he] at h
    injection h with h
    omega
  · rw [map_byte_err_of_not_mem hb] at h
    simp at h

/-- The decode loop succeeds on any input whose bytes are all either the
separator byte or alphabet characters. -/
theorem decodeLoop_ok_of_valid (input : List Nat) :
    ∀ place n : Nat, (∀ b ∈ input, b = SEP_BYTE ∨ b ∈ CHARS) →
    ∃ v, decodeLoop input place n = .ok v := by
  induction input with
  | nil => exact fun place n _ => ⟨n, rfl⟩
  | cons byte rest ih =>
    intro place n h
    have hrest : ∀ b ∈ rest, b = SEP_BYTE ∨ b ∈ CHARS :=
      fun b hb => h b (List.mem_cons_of_mem _ hb)
    by_cases hsep : byte = SEP_BYTE
    · simp only [decodeLoop, if_pos hsep]
      exact ih place n hrest
    · rcases h byte (List.mem_cons_self _ _) with hb | hb
      · exact absurd hb hsep
      · rcases map_byte_ok_of_mem hb with ⟨d, _, he⟩
        simp only [decodeLoop, if_neg hsep, he]
        exact ih _ _ hrest

/-- If the input contains a byte that is neither the separator byte nor an
alphabet character, the decode loop fails with InvalidDigit on the first
such byte. -/
theorem decodeLoop_err_of_invalid (input : List Nat) :
    ∀ place n : Nat, (∃ b ∈ input, b ∉ CHARS ∧ b ≠ SEP_BYTE) →
    ∃ b, b ∉ CHARS ∧ b ≠ SEP_BYTE ∧
      decodeLoop input place n = .error (.InvalidDigit b) := by
  induction input with
  | nil =>
    intro place n h
    rcases h with ⟨b, hb, _⟩
    cases hb
  | cons byte rest ih =>
    intro place n h
    by_cases hsep : byte = SEP_BYTE
    · rcases h with ⟨b, hmem, hprop⟩
      have hbr : b ∈ rest := by
        cases hmem with
        | head => exact absurd hsep hprop.2
        | tail _ hr => exact hr
      simp only [decodeLoop, if_pos hsep]
      exact ih place n ⟨b, hbr, hprop⟩
    · by_cases hmemc : byte ∈ CHARS
      · rcases map_byte_ok_of_mem hmemc with ⟨d, _, he⟩
        rcases h with ⟨b, hmem, hprop⟩
        have hbr : b ∈ rest := by
          cases hmem with
          | head => exact absurd hmemc hprop.1
          | tail _ hr => exact hr
        simp only [decodeLoop, if_neg hsep, he]
        exact ih _ _ ⟨b, hbr, hprop⟩
      · exact ⟨byte, hmemc, hsep,
          by simp only [decodeLoop, if_neg hsep, map_byte_err_of_not_mem hmemc]⟩

/-- Any successful result of the decode loop is bounded by the accumulator
plus 32 times the current place value. -/
theorem decodeLoop_ok_le (input : List Nat) :
    ∀ place n v : Nat, decodeLoop input place n = .ok v → v ≤ n + 32 * place := by
  induction input with
  | nil =>
    intro place n v h
    injection h with h
    omega
  | cons byte rest ih =>
    intro place n v h
    by_cases hsep : byte = SEP_BYTE
    · simp only [decodeLoop, if_pos hsep] at h
      exact ih place n v h
    · cases hmb : map_byte byte with
      | error e =>
        simp only [decodeLoop, if_neg hsep, hmb] at h
        exact Except.noConfusion h
      | ok d =>
        have hd := map_byte_lt hmb
        simp only [decodeLoop, if_neg hsep, hmb] at h
        have hrec := ih _ _ _ h
        have hpd : place * d ≤ place * 31 := Nat.mul_le_mul_left place (by omega)
        simp only [U128] at hrec
        omega

/-- Strict form of the bound: with a positive place value the result stays
at least one below the full range. With the initial place value 2 ^ 95 this
bounds every decoded value by 2 ^ 100 - 1. -/
theorem decodeLoop_ok_le_strict (input : List Nat) :
    ∀ place n v : Nat, 1 ≤ place → decodeLoop input place n = .ok v →
    v ≤ n + 32 * place - 1 := by
  induction input with
  | nil =>
    intro place n v hp h
    injection h with h
    omega
  | cons byte rest ih =>
    intro place n v hp h
    by_cases hsep : byte = SEP_BYTE
    · simp only [decodeLoop, if_pos hsep] at h
      exact ih place n v hp h
    · cases hmb : map_byte byte with
      | error e =>
        simp only [decodeLoop, if_neg hsep, hmb] at h
        exact Except.noConfusion h
      | ok d =>
        have hd := map_byte_lt hmb
        simp only [decodeLoop, if_neg hsep, hmb] at h
        have hpd : place * d ≤ place * 31 := Nat.mul_le_mul_left place (by omega)
        by_cases h32 : 32 ≤ place
        · have hrec := ih _ _ _ (by omega) h
          simp only [U128] at hrec
          omega
        · have hrec := decodeLoop_ok_le rest _ _ _ h
          simp only [U128] at hrec
          omega

/-- As long as the invariant n + 32 * place ≤ 2 ^ 100 holds, the wrapping
decode loop agrees with the exact-arithmetic one: no u128 reduction ever
truncates. The invariant holds initially with n = 0 and place = 2 ^ 95. -/
theorem decodeLoop_eq_exact (input : List Nat) :
    ∀ place n : Nat, n + 32 * place ≤ 2 ^ 100 →
    decodeLoop input place n = decodeLoopExact input place n := by
  induction input with
  | nil => intro place n _; rfl
  | cons byte rest ih =>
    intro place n hinv
    by_cases hsep : byte = SEP_BYTE
    · simp only [decodeLoop, decodeLoopExact, if_pos hsep]
      exact ih place n hinv
    · cases hmb : map_byte byte with
      | error e => simp only [decodeLoop, decodeLoopExact, if_neg hsep, hmb]
      | ok d =>
        have hd := map_byte_lt hmb
        have hpd : place * d ≤ place * 31 := Nat.mul_le_mul_left place (by omega)
        have hU : U128 = 2 ^ 128 := rfl
        have e1 : place * d % U128 = place * d := Nat.mod_eq_of_lt (by omega)
        have e2 : (n + place * d) % U128 = n + place * d := Nat.mod_eq_of_lt (by omega)
        simp only [decodeLoop, decodeLoopExact, if_neg hsep, hmb, e1, e2]
        exact ih (place / 32) (n + place * d) (by omega)

/-- Finite check over all 32 digits: an alphabet character is never the
separator byte and maps back to its digit. -/
theorem chars_getD_lt_aux :
    ∀ k, k < 32 → ¬(CHARS.getD k 0 = 45) ∧ map_byte (CHARS.getD k 0) = .ok k := by
  decide

/-- The alphabet character of a reduced digit maps back to the digit. -/
theorem map_byte_chars_getD (e : Nat) :
    map_byte (CHARS.getD (e % 32) 0) = .ok (e % 32) :=
  (chars_getD_lt_aux (e % 32) (Nat.mod_lt _ (by norm_num))).2

/-- An alphabet character is never the separator byte. -/
theorem chars_getD_mod_ne_sep (e : Nat) : ¬(CHARS.getD (e % 32) 0 = 45) :=
  (chars_getD_lt_aux (e % 32) (Nat.mod_lt _ (by norm_num))).1

/-- One data step of the encode loop at a non-separator index. -/
theorem encodeLoop_step_data (n : Nat) (buf : List Nat) (idx : Nat)
    (h1 : idx < 22) (h2 : ¬(idx = 6 ∨ idx = 15)) :
    encodeLoop n buf idx =
      encodeLoop (n * 32 % 2 ^ 128)
        (buf.set idx (CHARS.getD (n / 2 ^ 95 % 32) 0)) (idx + 1) := by
  rw [encodeLoop]
  simp only [STR_LEN, SEP_IDX, ID_BITS, U128, List.getD_cons_zero, List.getD_cons_succ]
  rw [if_pos h1, if_neg h2]

/-- One step of the encode loop at a separator index. -/
theorem encodeLoop_step_sep (n : Nat) (buf : List Nat) (idx : Nat)
    (h1 : idx < 22) (h2 : idx = 6 ∨ idx = 15) :
    encodeLoop n buf idx = encodeLoop n buf (idx + 1) := by
  rw [encodeLoop]
  simp only [STR_LEN, SEP_IDX, List.getD_cons_zero, List.getD_cons_succ]
  rw [if_pos h1, if_pos h2]

/-- The encode loop stops at index 22. -/
theorem encodeLoop_done (n : Nat) (buf : List Nat) : encodeLoop n buf 22 = buf := by
  rw [encodeLoop]
  simp [STR_LEN]

/-- The exact decode loop on the empty list returns the accumulator. -/
theorem decodeLoopExact_nil (place n : Nat) : decodeLoopExact [] place n = .ok n := rfl

/-- The exact decode loop skips a leading separator byte. -/
theorem decodeLoopExact_cons_sep (rest : List Nat) (place n : Nat) :
    decodeLoopExact (45 :: rest) place n = decodeLoopExact rest place n := by
  simp [decodeLoopExact, SEP_BYTE]

/-- One data step of the exact decode loop. -/
theorem decodeLoopExact_cons_data (byte : Nat) (rest : List Nat) (place n d : Nat)
    (hbyte : map_byte byte = .ok d) (hne : ¬(byte = 45)) :
    decodeLoopExact (byte :: rest) place n =
      decodeLoopExact rest (place / 32) (n + place * d) := by
  simp only [decodeLoopExact, SEP_BYTE]
  rw [if_neg hne, hbyte]

set_option maxRecDepth 10000 in
set_option maxHeartbeats 4000000 in
/-- Full unrolling of the encode loop: starting from the all-zeros buffer,
the written characters are the twenty base-32 digits of the value, most
significant first, with the separator byte untouched at indices 6 and 15. -/
theorem encodeLoop_digits (x : Nat) :
    encodeLoop (x % 2 ^ 100) [48, 48, 48, 48, 48, 48, 45, 48, 48, 48, 48, 48, 48, 48, 48, 45, 48, 48, 48, 48, 48, 48] 0 =
      [CHARS.getD (x % 2 ^ 100 / 2 ^ 95 % 32) 0,
       CHARS.getD (x % 2 ^ 100 / 2 ^ 90 % 32) 0,
       CHARS.getD (x % 2 ^ 100 / 2 ^ 85 % 32) 0,
       CHARS.getD (x % 2 ^ 100 / 2 ^ 80 % 32) 0,
       CHARS.getD (x % 2 ^ 100 / 2 ^ 75 % 32) 0,
       CHARS.getD (x % 2 ^ 100 / 2 ^ 70 % 32) 0,
       45,
       CHARS.getD (x % 2 ^ 100 / 2 ^ 65 % 32) 0,
       CHARS.getD (x % 2 ^ 100 / 2 ^ 60 % 32) 0,
       CHARS.getD (x % 2 ^ 100 / 2 ^ 55 % 32) 0,
       CHARS.getD (x % 2 ^ 100 / 2 ^ 50 % 32) 0,
       CHARS.getD (x % 2 ^ 100 / 2 ^ 45 % 32) 0,
       CHARS.getD (x % 2 ^ 100 / 2 ^ 40 % 32) 0,
       CHARS.getD (x % 2 ^ 100 / 2 ^ 35 % 32) 0,
       CHARS.getD (x % 2 ^ 100 / 2 ^ 30 % 32) 0,
       45,
       CHARS.getD (x % 2 ^ 100 / 2 ^ 25 % 32) 0,
       CHARS.getD (x % 2 ^ 100 / 2 ^ 20 % 32) 0,
       CHARS.getD (x % 2 ^ 100 / 2 ^ 15 % 32) 0,
       CHARS.getD (x % 2 ^ 100 / 2 ^ 10 % 32) 0,
       CHARS.getD (x % 2 ^ 100 / 2 ^ 5 % 32) 0,
       CHARS.getD (x % 2 ^ 100 / 2 ^ 0 % 32) 0] := by
  rw [encodeLoop_step_data _ _ 0 (by decide) (by decide)]
  rw [show x % 2 ^ 100 * 32 % 2 ^ 128 = x % 2 ^ 100 * 2 ^ 5 % 2 ^ 128 from by omega]
  simp only [List.set]
  rw [encodeLoop_step_data _ _ 1 (by decide) (by decide)]
  rw [show x % 2 ^ 100 * 2 ^ 5 % 2 ^ 128 / 2 ^ 95 % 32 = x % 2 ^ 100 / 2 ^ 90 % 32 from by omega]
  rw [show x % 2 ^ 100 * 2 ^ 5 % 2 ^ 128 * 32 % 2 ^ 128 = x % 2 ^ 100 * 2 ^ 10 % 2 ^ 128 from by omega]
  simp only [List.set]
  rw [encodeLoop_step_data _ _ 2 (by decide) (by decide)]
  rw [show x % 2 ^ 100 * 2 ^ 10 % 2 ^ 128 / 2 ^ 95 % 32 = x % 2 ^ 100 / 2 ^ 85 % 32 from by omega]
  rw [show x % 2 ^ 100 * 2 ^ 10 % 2 ^ 128 * 32 % 2 ^ 128 = x % 2 ^ 100 * 2 ^ 15 % 2 ^ 128 from by omega]
  simp only [List.set]
  rw [encodeLoop_step_data _ _ 3 (by decide) (by decide)]
  rw [show x % 2 ^ 100 * 2 ^ 15 % 2 ^ 128 / 2 ^ 95 % 32 = x % 2 ^ 100 / 2 ^ 80 % 32 from by omega]
  rw [show x % 2 ^ 100 * 2 ^ 15 % 2 ^ 128 * 32 % 2 ^ 128 = x % 2 ^ 100 * 2 ^ 20 % 2 ^ 128 from by omega]
  simp only [List.set]
  rw [encodeLoop_step_data _ _ 4 (by decide) (by decide)]
  rw [show x % 2 ^ 100 * 2 ^ 20 % 2 ^ 128 / 2 ^ 95 % 32 = x % 2 ^ 100 / 2 ^ 75 % 32 from by omega]
  rw [show x % 2 ^ 100 * 2 ^ 20 % 2 ^ 128 * 32 % 2 ^ 128 = x % 2 ^ 100 * 2 ^ 25 % 2 ^ 128 from by omega]
  simp only [List.set]
  rw [encodeLoop_step_data _ _ 5 (by decide) (by decide)]
  rw [show x % 2 ^ 100 * 2 ^ 25 % 2 ^ 128 / 2 ^ 95 % 32 = x % 2 ^ 100 / 2 ^ 70 % 32 from by omega]
  rw [show x % 2 ^ 100 * 2 ^ 25 % 2 ^ 128 * 32 % 2 ^ 128 = x % 2 ^ 100 * 2 ^ 30 % 2 ^ 128 from by omega]
  simp only [List.set]
  rw [encodeLoop_step_sep _ _ 6 (by decide) (by decide)]
  rw [encodeLoop_step_data _ _ 7 (by decide) (by decide)]
  rw [show x % 2 ^ 100 * 2 ^ 30 % 2 ^ 128 / 2 ^ 95 % 32 = x % 2 ^ 100 / 2 ^ 65 % 32 from by omega]
  rw [show x % 2 ^ 100 * 2 ^ 30 % 2 ^ 128 * 32 % 2 ^ 128 = x % 2 ^ 100 * 2 ^ 35 % 2 ^ 128 from by omega]
  simp only [List.set]
  rw [encodeLoop_step_data _ _ 8 (by decide) (by decide)]
  rw [show x % 2 ^ 100 * 2 ^ 35 % 2 ^ 128 / 2 ^ 95 % 32 = x % 2 ^ 100 / 2 ^ 60 % 32 from by omega]
  rw [show x % 2 ^ 100 * 2 ^ 35 % 2 ^ 128 * 32 % 2 ^ 128 = x % 2 ^ 100 * 2 ^ 40 % 2 ^ 128 from by omega]
  simp only [List.set]
  rw [encodeLoop_step_data _ _ 9 (by decide) (by decide)]
  rw [show x % 2 ^ 100 * 2 ^ 40 % 2 ^ 128 / 2 ^ 95 % 32 = x % 2 ^ 100 / 2 ^ 55 % 32 from by omega]
  rw [show x % 2 ^ 100 * 2 ^ 40 % 2 ^ 128 * 32 % 2 ^ 128 = x % 2 ^ 100 * 2 ^ 45 % 2 ^ 128 from by omega]
  simp only [List.set]
  rw [encodeLoop_step_data _ _ 10 (by decide) (by decide)]
  rw [show x % 2 ^ 100 * 2 ^ 45 % 2 ^ 128 / 2 ^ 95 % 32 = x % 2 ^ 100 / 2 ^ 50 % 32 from by omega]
  rw [show x % 2 ^ 100 * 2 ^ 45 % 2 ^ 128 * 32 % 2 ^ 128 = x % 2 ^ 100 * 2 ^ 50 % 2 ^ 128 from by omega]
  simp only [List.set]
  rw [encodeLoop_step_data _ _ 11 (by decide) (by decide)]
  rw [show x % 2 ^ 100 * 2 ^ 50 % 2 ^ 128 / 2 ^ 95 % 32 = x % 2 ^ 100 / 2 ^ 45 % 32 from by omega]
  rw [show x % 2 ^ 100 * 2 ^ 50 % 2 ^ 128 * 32 % 2 ^ 128 = x % 2 ^ 100 * 2 ^ 55 % 2 ^ 128 from by omega]
  simp only [List.set]
  rw [encodeLoop_step_data _ _ 12 (by decide) (by decide)]
  rw [show x % 2 ^ 100 * 2 ^ 55 % 2 ^ 128 / 2 ^ 95 % 32 = x % 2 ^ 100 / 2 ^ 40 % 32 from by omega]
  rw [show x % 2 ^ 100 * 2 ^ 55 % 2 ^ 128 * 32 % 2 ^ 128 = x % 2 ^ 100 * 2 ^ 60 % 2 ^ 128 from by omega]
  simp only [List.set]
  rw [encodeLoop_step_data _ _ 13 (by decide) (by decide)]
  rw [show x % 2 ^ 100 * 2 ^ 60 % 2 ^ 128 / 2 ^ 95 % 32 = x % 2 ^ 100 / 2 ^ 35 % 32 from by omega]
  rw [show x % 2 ^ 100 * 2 ^ 60 % 2 ^ 128 * 32 % 2 ^ 128 = x % 2 ^ 100 * 2 ^ 65 % 2 ^ 128 from by omega]
  simp only [List.set]
  rw [encodeLoop_step_data _ _ 14 (by decide) (by decide)]
  rw [show x % 2 ^ 100 * 2 ^ 65 % 2 ^ 128 / 2 ^ 95 % 32 = x % 2 ^ 100 / 2 ^ 30 % 32 from by omega]
  rw [show x % 2 ^ 100 * 2 ^ 65 % 2 ^ 128 * 32 % 2 ^ 128 = x % 2 ^ 100 * 2 ^ 70 % 2 ^ 128 from by omega]
  simp only [List.set]
  rw [encodeLoop_step_sep _ _ 15 (by decide) (by decide)]
  rw [encodeLoop_step_data _ _ 16 (by decide) (by decide)]
  rw [show x % 2 ^ 100 * 2 ^ 70 % 2 ^ 128 / 2 ^ 95 % 32 = x % 2 ^ 100 / 2 ^ 25 % 32 from by omega]
  rw [show x % 2 ^ 100 * 2 ^ 70 % 2 ^ 128 * 32 % 2 ^ 128 = x % 2 ^ 100 * 2 ^ 75 % 2 ^ 128 from by omega]
  simp only [List.set]
  rw [encodeLoop_step_data _ _ 17 (by decide) (by decide)]
  rw [show x % 2 ^ 100 * 2 ^ 75 % 2 ^ 128 / 2 ^ 95 % 32 = x % 2 ^ 100 / 2 ^ 20 % 32 from by omega]
  rw [show x % 2 ^ 100 * 2 ^ 75 % 2 ^ 128 * 32 % 2 ^ 128 = x % 2 ^ 100 * 2 ^ 80 % 2 ^ 128 from by omega]
  simp only [List.set]
  rw [encodeLoop_step_data _ _ 18 (by decide) (by decide)]
  rw [show x % 2 ^ 100 * 2 ^ 80 % 2 ^ 128 / 2 ^ 95 % 32 = x % 2 ^ 100 / 2 ^ 15 % 32 from by omega]
  rw [show x % 2 ^ 100 * 2 ^ 80 % 2 ^ 128 * 32 % 2 ^ 128 = x % 2 ^ 100 * 2 ^ 85 % 2 ^ 128 from by omega]
  simp only [List.set]
  rw [encodeLoop_step_data _ _ 19 (by decide) (by decide)]
  rw [show x % 2 ^ 100 * 2 ^ 85 % 2 ^ 128 / 2 ^ 95 % 32 = x % 2 ^ 100 / 2 ^ 10 % 32 from by omega]
  rw [show x % 2 ^ 100 * 2 ^ 85 % 2 ^ 128 * 32 % 2 ^ 128 = x % 2 ^ 100 * 2 ^ 90 % 2 ^ 128 from by omega]
  simp only [List.set]
  rw [encodeLoop_step_data _ _ 20 (by decide) (by decide)]
  rw [show x % 2 ^ 100 * 2 ^ 90 % 2 ^ 128 / 2 ^ 95 % 32 = x % 2 ^ 100 / 2 ^ 5 % 32 from by omega]
  rw [show x % 2 ^ 100 * 2 ^ 90 % 2 ^ 128 * 32 % 2 ^ 128 = x % 2 ^ 100 * 2 ^ 95 % 2 ^ 128 from by omega]
  simp only [List.set]
  rw [encodeLoop_step_data _ _ 21 (by decide) (by decide)]
  rw [show x % 2 ^ 100 * 2 ^ 95 % 2 ^ 128 / 2 ^ 95 % 32 = x % 2 ^ 100 / 2 ^ 0 % 32 from by omega]
  simp only [List.set]
  rw [encodeLoop_done]
/-- encode_array produces exactly the digit string of the masked value. -/
theorem encode_array_digits (x : Nat) :
    encode_array x =
      [CHARS.getD (x % 2 ^ 100 / 2 ^ 95 % 32) 0,
       CHARS.getD (x % 2 ^ 100 / 2 ^ 90 % 32) 0,
       CHARS.getD (x % 2 ^ 100 / 2 ^ 85 % 32) 0,
       CHARS.getD (x % 2 ^ 100 / 2 ^ 80 % 32) 0,
       CHARS.getD (x % 2 ^ 100 / 2 ^ 75 % 32) 0,
       CHARS.getD (x % 2 ^ 100 / 2 ^ 70 % 32) 0,
       45,
       CHARS.getD (x % 2 ^ 100 / 2 ^ 65 % 32) 0,
       CHARS.getD (x % 2 ^ 100 / 2 ^ 60 % 32) 0,
       CHARS.getD (x % 2 ^ 100 / 2 ^ 55 % 32) 0,
       CHARS.getD (x % 2 ^ 100 / 2 ^ 50 % 32) 0,
       CHARS.getD (x % 2 ^ 100 / 2 ^ 45 % 32) 0,
       CHARS.getD (x % 2 ^ 100 / 2 ^ 40 % 32) 0,
       CHARS.getD (x % 2 ^ 100 / 2 ^ 35 % 32) 0,
       CHARS.getD (x % 2 ^ 100 / 2 ^ 30 % 32) 0,
       45,
       CHARS.getD (x % 2 ^ 100 / 2 ^ 25 % 32) 0,
       CHARS.getD (x % 2 ^ 100 / 2 ^ 20 % 32) 0,
       CHARS.getD (x % 2 ^ 100 / 2 ^ 15 % 32) 0,
       CHARS.getD (x % 2 ^ 100 / 2 ^ 10 % 32) 0,
       CHARS.getD (x % 2 ^ 100 / 2 ^ 5 % 32) 0,
       CHARS.getD (x % 2 ^ 100 / 2 ^ 0 % 32) 0] := by
  by_cases h0 : x % 2 ^ 100 = 0
  · simp only [encode_array, to_100bit, ID_BITS, h0]
    norm_num
    rfl
  · simp only [encode_array, to_100bit, ID_BITS]
    rw [if_neg h0]
    exact encodeLoop_digits x

set_option maxRecDepth 10000 in
set_option maxHeartbeats 4000000 in
/-- Decoding the digit string of a 100-bit value recovers the value: the
length test passes, the separator bytes are skipped, each character maps
back to its digit, and the weighted sum telescopes to the value. -/
theorem decode_digits (x : Nat) :
    decode
      [CHARS.getD (x % 2 ^ 100 / 2 ^ 95 % 32) 0,
       CHARS.getD (x % 2 ^ 100 / 2 ^ 90 % 32) 0,
       CHARS.getD (x % 2 ^ 100 / 2 ^ 85 % 32) 0,
       CHARS.getD (x % 2 ^ 100 / 2 ^ 80 % 32) 0,
       CHARS.getD (x % 2 ^ 100 / 2 ^ 75 % 32) 0,
       CHARS.getD (x % 2 ^ 100 / 2 ^ 70 % 32) 0,
       45,
       CHARS.getD (x % 2 ^ 100 / 2 ^ 65 % 32) 0,
       CHARS.getD (x % 2 ^ 100 / 2 ^ 60 % 32) 0,
       CHARS.getD (x % 2 ^ 100 / 2 ^ 55 % 32) 0,
       CHARS.getD (x % 2 ^ 100 / 2 ^ 50 % 32) 0,
       CHARS.getD (x % 2 ^ 100 / 2 ^ 45 % 32) 0,
       CHARS.getD (x % 2 ^ 100 / 2 ^ 40 % 32) 0,
       CHARS.getD (x % 2 ^ 100 / 2 ^ 35 % 32) 0,
       CHARS.getD (x % 2 ^ 100 / 2 ^ 30 % 32) 0,
       45,
       CHARS.getD (x % 2 ^ 100 / 2 ^ 25 % 32) 0,
       CHARS.getD (x % 2 ^ 100 / 2 ^ 20 % 32) 0,
       CHARS.getD (x % 2 ^ 100 / 2 ^ 15 % 32) 0,
       CHARS.getD (x % 2 ^ 100 / 2 ^ 10 % 32) 0,
       CHARS.getD (x % 2 ^ 100 / 2 ^ 5 % 32) 0,
       CHARS.getD (x % 2 ^ 100 / 2 ^ 0 % 32) 0] = .ok (x % 2 ^ 100) := by
  have hmsp : MOST_SIGNIFICANT_POSITION = 2 ^ 95 := by
    norm_num [MOST_SIGNIFICANT_POSITION, STR_LEN, SEP_IDX]
  rw [decode, if_neg (by norm_num [STR_LEN]), hmsp]
  rw [decodeLoop_eq_exact _ _ _ (by norm_num)]
  rw [decodeLoopExact_cons_data _ _ _ _ _ (map_byte_chars_getD _) (chars_getD_mod_ne_sep _)]
  rw [show 0 + 2 ^ 95 * (x % 2 ^ 100 / 2 ^ 95 % 32) = x % 2 ^ 100 / 2 ^ 95 * 2 ^ 95 from by omega]
  rw [decodeLoopExact_cons_data _ _ _ _ _ (map_byte_chars_getD _) (chars_getD_mod_ne_sep _)]
  rw [show x % 2 ^ 100 / 2 ^ 95 * 2 ^ 95 + 2 ^ 95 / 32 * (x % 2 ^ 100 / 2 ^ 90 % 32) = x % 2 ^ 100 / 2 ^ 90 * 2 ^ 90 from by omega]
  rw [decodeLoopExact_cons_data _ _ _ _ _ (map_byte_chars_getD _) (chars_getD_mod_ne_sep _)]
  rw [show x % 2 ^ 100 / 2 ^ 90 * 2 ^ 90 + 2 ^ 95 / 32 / 32 * (x % 2 ^ 100 / 2 ^ 85 % 32) = x % 2 ^ 100 / 2 ^ 85 * 2 ^ 85 from by omega]
  rw [decodeLoopExact_cons_data _ _ _ _ _ (map_byte_chars_getD _) (chars_getD_mod_ne_sep _)]
  rw [show x % 2 ^ 100 / 2 ^ 85 * 2 ^ 85 + 2 ^ 95 / 32 / 32 / 32 * (x % 2 ^ 100 / 2 ^ 80 % 32) = x % 2 ^ 100 / 2 ^ 80 * 2 ^ 80 from by omega]
  rw [decodeLoopExact_cons_data _ _ _ _ _ (map_byte_chars_getD _) (chars_getD_mod_ne_sep _)]
  rw [show x % 2 ^ 100 / 2 ^ 80 * 2 ^ 80 + 2 ^ 95 / 32 / 32 / 32 / 32 * (x % 2 ^ 100 / 2 ^ 75 % 32) = x % 2 ^ 100 / 2 ^ 75 * 2 ^ 75 from by omega]
  rw [decodeLoopExact_cons_data _ _ _ _ _ (map_byte_chars_getD _) (chars_getD_mod_ne_sep _)]
  rw [show x % 2 ^ 100 / 2 ^ 75 * 2 ^ 75 + 2 ^ 95 / 32 / 32 / 32 / 32 / 32 * (x % 2 ^ 100 / 2 ^ 70 % 32) = x % 2 ^ 100 / 2 ^ 70 * 2 ^ 70 from by omega]
  rw [decodeLoopExact_cons_sep]
  rw [decodeLoopExact_cons_data _ _ _ _ _ (map_byte_chars_getD _) (chars_getD_mod_ne_sep _)]
  rw [show x % 2 ^ 100 / 2 ^ 70 * 2 ^ 70 + 2 ^ 95 / 32 / 32 / 32 / 32 / 32 / 32 * (x % 2 ^ 100 / 2 ^ 65 % 32) = x % 2 ^ 100 / 2 ^ 65 * 2 ^ 65 from by omega]
  rw [decodeLoopExact_cons_data _ _ _ _ _ (map_byte_chars_getD _) (chars_getD_mod_ne_sep _)]
  rw [show x % 2 ^ 100 / 2 ^ 65 * 2 ^ 65 + 2 ^ 95 / 32 / 32 / 32 / 32 / 32 / 32 / 32 * (x % 2 ^ 100 / 2 ^ 60 % 32) = x % 2 ^ 100 / 2 ^ 60 * 2 ^ 60 from by omega]
  rw [decodeLoopExact_cons_data _ _ _ _ _ (map_byte_chars_getD _) (chars_getD_mod_ne_sep _)]
  rw [show x % 2 ^ 100 / 2 ^ 60 * 2 ^ 60 + 2 ^ 95 / 32 / 32 / 32 / 32 / 32 / 32 / 32 / 32 * (x % 2 ^ 100 / 2 ^ 55 % 32) = x % 2 ^ 100 / 2 ^ 55 * 2 ^ 55 from by omega]
  rw [decodeLoopExact_cons_data _ _ _ _ _ (map_byte_chars_getD _) (chars_getD_mod_ne_sep _)]
  rw [show x % 2 ^ 100 / 2 ^ 55 * 2 ^ 55 + 2 ^ 95 / 32 / 32 / 32 / 32 / 32 / 32 / 32 / 32 / 32 * (x % 2 ^ 100 / 2 ^ 50 % 32) = x % 2 ^ 100 / 2 ^ 50 * 2 ^ 50 from by omega]
  rw [decodeLoopExact_cons_data _ _ _ _ _ (map_byte_chars_getD _) (chars_getD_mod_ne_sep _)]
  rw [show x % 2 ^ 100 / 2 ^ 50 * 2 ^ 50 + 2 ^ 95 / 32 / 32 / 32 / 32 / 32 / 32 / 32 / 32 / 32 / 32 * (x % 2 ^ 100 / 2 ^ 45 % 32) = x % 2 ^ 100 / 2 ^ 45 * 2 ^ 45 from by omega]
  rw [decodeLoopExact_cons_data _ _ _ _ _ (map_byte_chars_getD _) (chars_getD_mod_ne_sep _)]
  rw [show x % 2 ^ 100 / 2 ^ 45 * 2 ^ 45 + 2 ^ 95 / 32 / 32 / 32 / 32 / 32 / 32 / 32 / 32 / 32 / 32 / 32 * (x % 2 ^ 100 / 2 ^ 40 % 32) = x % 2 ^ 100 / 2 ^ 40 * 2 ^ 40 from by omega]
  rw [decodeLoopExact_cons_data _ _ _ _ _ (map_byte_chars_getD _) (chars_getD_mod_ne_sep _)]
  rw [show x % 2 ^ 100 / 2 ^ 40 * 2 ^ 40 + 2 ^ 95 / 32 / 32 / 32 / 32 / 32 / 32 / 32 / 32 / 32 / 32 / 32 / 32 * (x % 2 ^ 100 / 2 ^ 35 % 32) = x % 2 ^ 100 / 2 ^ 35 * 2 ^ 35 from by omega]
  rw [decodeLoopExact_cons_data _ _ _ _ _ (map_byte_chars_getD _) (chars_getD_mod_ne_sep _)]
  rw [show x % 2 ^ 100 / 2 ^ 35 * 2 ^ 35 + 2 ^ 95 / 32 / 32 / 32 / 32 / 32 / 32 / 32 / 32 / 32 / 32 / 32 / 32 / 32 * (x % 2 ^ 100 / 2 ^ 30 % 32) = x % 2 ^ 100 / 2 ^ 30 * 2 ^ 30 from by omega]
  rw [decodeLoopExact_cons_sep]
  rw [decodeLoopExact_cons_data _ _ _ _ _ (map_byte_chars_getD _) (chars_getD_mod_ne_sep _)]
  rw [show x % 2 ^ 100 / 2 ^ 30 * 2 ^ 30 + 2 ^ 95 / 32 / 32 / 32 / 32 / 32 / 32 / 32 / 32 / 32 / 32 / 32 / 32 / 32 / 32 * (x % 2 ^ 100 / 2 ^ 25 % 32) = x % 2 ^ 100 / 2 ^ 25 * 2 ^ 25 from by omega]
  rw [decodeLoopExact_cons_data _ _ _ _ _ (map_byte_chars_getD _) (chars_getD_mod_ne_sep _)]
  rw [show x % 2 ^ 100 / 2 ^ 25 * 2 ^ 25 + 2 ^ 95 / 32 / 32 / 32 / 32 / 32 / 32 / 32 / 32 / 32 / 32 / 32 / 32 / 32 / 32 / 32 * (x % 2 ^ 100 / 2 ^ 20 % 32) = x % 2 ^ 100 / 2 ^ 20 * 2 ^ 20 from by omega]
  rw [decodeLoopExact_cons_data _ _ _ _ _ (map_byte_chars_getD _) (chars_getD_mod_ne_sep _)]
  rw [show x % 2 ^ 100 / 2 ^ 20 * 2 ^ 20 + 2 ^ 95 / 32 / 32 / 32 / 32 / 32 / 32 / 32 / 32 / 32 / 32 / 32 / 32 / 32 / 32 / 32 / 32 * (x % 2 ^ 100 / 2 ^ 15 % 32) = x % 2 ^ 100 / 2 ^ 15 * 2 ^ 15 from by omega]
  rw [decodeLoopExact_cons_data _ _ _ _ _ (map_byte_chars_getD _) (chars_getD_mod_ne_sep _)]
  rw [show x % 2 ^ 100 / 2 ^ 15 * 2 ^ 15 + 2 ^ 95 / 32 / 32 / 32 / 32 / 32 / 32 / 32 / 32 / 32 / 32 / 32 / 32 / 32 / 32 / 32 / 32 / 32 * (x % 2 ^ 100 / 2 ^ 10 % 32) = x % 2 ^ 100 / 2 ^ 10 * 2 ^ 10 from by omega]
  rw [decodeLoopExact_cons_data _ _ _ _ _ (map_byte_chars_getD _) (chars_getD_mod_ne_sep _)]
  rw [show x % 2 ^ 100 / 2 ^ 10 * 2 ^ 10 + 2 ^ 95 / 32 / 32 / 32 / 32 / 32 / 32 / 32 / 32 / 32 / 32 / 32 / 32 / 32 / 32 / 32 / 32 / 32 / 32 * (x % 2 ^ 100 / 2 ^ 5 % 32) = x % 2 ^ 100 / 2 ^ 5 * 2 ^ 5 from by omega]
  rw [decodeLoopExact_cons_data _ _ _ _ _ (map_byte_chars_getD _) (chars_getD_mod_ne_sep _)]
  rw [show x % 2 ^ 100 / 2 ^ 5 * 2 ^ 5 + 2 ^ 95 / 32 / 32 / 32 / 32 / 32 / 32 / 32 / 32 / 32 / 32 / 32 / 32 / 32 / 32 / 32 / 32 / 32 / 32 / 32 * (x % 2 ^ 100 / 2 ^ 0 % 32) = x % 2 ^ 100 / 2 ^ 0 * 2 ^ 0 from by omega]
  rw [decodeLoopExact_nil]
  rw [show x % 2 ^ 100 / 2 ^ 0 * 2 ^ 0 = x % 2 ^ 100 from by omega]
/-- C1: round trip. For every u128 value x, decoding the 22-character array
produced by encoding x yields exactly the low 100 bits of x. -/
theorem claim_C1_round_trip (x : Nat) :
    decode (encode_array x) = .ok (x % 2 ^ 100) := by
  rw [encode_array_digits]
  exact decode_digits x

/-- C2: the claim states that the From u128 conversion masks off the bits
above bit 100 just as Id::from_u128 does. It does not: impl From of u128
stores x unmasked, so at x = 2 ^ 100 the stored value is 2 ^ 100, not
2 ^ 100 masked to 0. -/
theorem claim_C2_counterexample :
    (Id.fromNative (2 ^ 100)).val ≠ 2 ^ 100 % 2 ^ 100 := by decide

/-- C2 amended: Id::from_u128 masks its argument to the low 100 bits and is
total, while the From u128 conversion stores its argument unchanged, with no
mask. -/
theorem claim_C2_from_u128_masks (x : Nat) :
    (Id.from_u128 x).val = x % 2 ^ 100 ∧ (Id.fromNative x).val = x :=
  ⟨rfl, rfl⟩

/-- C3: the claim states that identifiers from any library constructor are
equal iff the low 100 bits of their stored values agree. The unmasked From
u128 conversion refutes it: Id from 2 ^ 101 and Id::from_u128(2 ^ 101) have
equal low 100 bits (both zero) yet compare unequal, since derived equality
compares the full stored u128. -/
theorem claim_C3_counterexample :
    (Id.fromNative (2 ^ 101)).val % 2 ^ 100 = (Id.from_u128 (2 ^ 101)).val % 2 ^ 100 ∧
    Id.fromNative (2 ^ 101) ≠ Id.from_u128 (2 ^ 101) := by decide

/-- C3 amended: equality of Id values is equality of the full stored u128;
for identifiers built by the masking constructor Id::from_u128 this
coincides with equality of the low 100 bits of the inputs. -/
theorem claim_C3_eq_iff (x y : Nat) :
    Id.from_u128 x = Id.from_u128 y ↔ x % 2 ^ 100 = y % 2 ^ 100 := by
  simp [Id.from_u128, ID_BITS, Id.mk.injEq]

/-- C4: the crate derives no PartialOrd or Ord for Id, so the claimed
library ordering does not exist; this theorem records the ordering property
at the level of the stored u128 value that Id::new composes: with the time
field in the most significant bits, an identifier composed at a later tick
has a strictly larger stored value than one composed at an earlier tick,
regardless of the random bits, while the tick count fits its 36 bits. -/
theorem claim_C4_tick_ordering (ms1 ms2 r1 r2 : Nat)
    (hlt : timestamp_from_unix_dur ms1 < timestamp_from_unix_dur ms2)
    (hfit : timestamp_from_unix_dur ms2 < 2 ^ 36) :
    (Id.new_at ms1 r1).val < (Id.new_at ms2 r2).val := by
  simp only [Id.new_at, RND_BITS]
  generalize timestamp_from_unix_dur ms1 = t1 at hlt ⊢
  generalize timestamp_from_unix_dur ms2 = t2 at hlt hfit ⊢
  have hr1 : r1 % 2 ^ 64 < 2 ^ 64 := Nat.mod_lt _ (by norm_num)
  have hr2 : r2 % 2 ^ 64 < 2 ^ 64 := Nat.mod_lt _ (by norm_num)
  have hm1 : t1 * 2 ^ 64 % U128 = t1 * 2 ^ 64 :=
    Nat.mod_eq_of_lt (by simp only [U128]; omega)
  have hm2 : t2 * 2 ^ 64 % U128 = t2 * 2 ^ 64 :=
    Nat.mod_eq_of_lt (by simp only [U128]; omega)
  rw [hm1, hm2]
  have hor1 : t1 * 2 ^ 64 ||| r1 % 2 ^ 64 = t1 * 2 ^ 64 + r1 % 2 ^ 64 := by
    rw [Nat.mul_comm t1 (2 ^ 64)]
    exact (Nat.mul_add_lt_is_or hr1 t1).symm
  have hor2 : t2 * 2 ^ 64 ||| r2 % 2 ^ 64 = t2 * 2 ^ 64 + r2 % 2 ^ 64 := by
    rw [Nat.mul_comm t2 (2 ^ 64)]
    exact (Nat.mul_add_lt_is_or hr2 t2).symm
  rw [hor1, hor2]
  omega

/-- C4 witness: one second after the epoch the tick count is 32, so an
identifier composed then compares above one composed at the epoch, even
with an adversarial choice of random bits. -/
theorem claim_C4_witness :
    (Id.new_at 1577836800000 (2 ^ 64 - 1)).val < (Id.new_at 1577836801000 0).val :=
  claim_C4_tick_ordering 1577836800000 1577836801000 (2 ^ 64 - 1) 0
    (by decide) (by decide)

/-- C5: decode rejects every input whose byte length differs from 22 with
InvalidStrLen carrying the actual length, regardless of content, and any
successful decode implies the input length was exactly 22. -/
theorem claim_C5_length_check (input : List Nat) :
    (input.length ≠ 22 → decode input = .error (.InvalidStrLen input.length)) ∧
    (∀ v, decode input = .ok v → input.length = 22) := by
  constructor
  · intro h
    unfold decode
    rw [if_pos (by simpa [STR_LEN] using h)]
  · intro v hv
    by_contra hne
    unfold decode at hv
    rw [if_pos (by simpa [STR_LEN] using hne)] at hv
    exact Except.noConfusion hv

/-- C5 witness: a length-3 input fails with InvalidStrLen 3, and the
successfully decoded all-zeros string has length 22. -/
theorem claim_C5_witness :
    decode [48, 48, 48] = .error (.InvalidStrLen 3) ∧ ZERO_BUF.length = 22 :=
  ⟨(claim_C5_length_check [48, 48, 48]).1 (by decide),
   (claim_C5_length_check ZERO_BUF).2 0 rfl⟩

/-- C6: the claim states that a 22-byte string with a byte outside the
alphabet and alias set at a data position fails with InvalidDigit. The
separator byte is outside the alphabet, yet placed at data position 0 it is
skipped and decoding succeeds. -/
theorem claim_C6_counterexample :
    decode [45, 48, 48, 48, 48, 48, 45, 48, 48, 48, 48, 48, 48, 48, 48, 45,
            48, 48, 48, 48, 48, 48] = .ok 0 := rfl

/-- C6 amended: decode succeeds on every 22-byte string holding alphabet
characters at all data positions and the separator byte at positions 6 and
15; and it fails with an InvalidDigit error for every 22-byte string holding
a byte outside both the alphabet and the separator byte at a data position
(the error carries the first such byte scanned). -/
theorem claim_C6_alphabet_closure :
    (∀ input : List Nat, input.length = 22 →
      input.getD 6 0 = SEP_BYTE → input.getD 15 0 = SEP_BYTE →
      (∀ i, i < 22 → i ≠ 6 → i ≠ 15 → input.getD i 0 ∈ CHARS) →
      ∃ v, decode input = .ok v) ∧
    (∀ input : List Nat, input.length = 22 →
      (∃ i, i < 22 ∧ i ≠ 6 ∧ i ≠ 15 ∧ input.getD i 0 ∉ CHARS ∧
        input.getD i 0 ≠ SEP_BYTE) →
      ∃ b, b ∉ CHARS ∧ b ≠ SEP_BYTE ∧
        decode input = .error (.InvalidDigit b)) := by
  constructor
  · intro input hlen h6 h15 hdata
    have hall : ∀ b ∈ input, b = SEP_BYTE ∨ b ∈ CHARS := by
      intro b hb
      rcases List.mem_iff_getElem.mp hb with ⟨i, hi, hge⟩
      have hgd : input.getD i 0 = b := by
        rw [List.getD_eq_getElem input 0 hi, hge]
      by_cases h6i : i = 6
      · left
        rw [← hgd, h6i]
        exact h6
      · by_cases h15i : i = 15
        · left
          rw [← hgd, h15i]
          exact h15
        · right
          rw [← hgd]
          exact hdata i (by omega) h6i h15i
    rcases decodeLoop_ok_of_valid input MOST_SIGNIFICANT_POSITION 0 hall with ⟨v, hv⟩
    refine ⟨v, ?_⟩
    unfold decode
    rw [if_neg (by simp [STR_LEN, hlen])]
    exact hv
  · intro input hlen hex
    obtain ⟨i, hi, h6i, h15i, hnc, hns⟩ := hex
    have hmem : input.getD i 0 ∈ input := by
      rw [List.getD_eq_getElem input 0 (by omega : i < input.length)]
      exact List.getElem_mem _
    rcases decodeLoop_err_of_invalid input MOST_SIGNIFICANT_POSITION 0
      ⟨_, hmem, hnc, hns⟩ with ⟨b, hb1, hb2, hb3⟩
    refine ⟨b, hb1, hb2, ?_⟩
    unfold decode
    rw [if_neg (by simp [STR_LEN, hlen])]
    exact hb3

/-- C6 witness: the all-zeros canonical string decodes successfully, and a
22-byte string with the excluded letter u (byte 85 is uppercase U) at data
position 0 fails with an InvalidDigit error. -/
theorem claim_C6_witness :
    (∃ v, decode ZERO_BUF = .ok v) ∧
    (∃ b, b ∉ CHARS ∧ b ≠ SEP_BYTE ∧
      decode [85, 48, 48, 48, 48, 48, 45, 48, 48, 48, 48, 48, 48, 48, 48, 45,
              48, 48, 48, 48, 48, 48] = .error (.InvalidDigit b)) :=
  ⟨claim_C6_alphabet_closure.1 ZERO_BUF rfl rfl rfl (by decide),
   claim_C6_alphabet_closure.2 _ rfl ⟨0, by decide⟩⟩

/-- C7: the claim states decode accepts uppercase and visual aliases as
equivalent input. This variant's table has no aliases: the string with an
uppercase A in the last data position is rejected with InvalidDigit 65,
while the canonical lowercase string decodes to 10. -/
theorem claim_C7_counterexample :
    decode [48, 48, 48, 48, 48, 48, 45, 48, 48, 48, 48, 48, 48, 48, 48, 45,
            48, 48, 48, 48, 48, 65] = .error (.InvalidDigit 65) ∧
    decode [48, 48, 48, 48, 48, 48, 45, 48, 48, 48, 48, 48, 48, 48, 48, 45,
            48, 48, 48, 48, 48, 97] = .ok 10 :=
  ⟨rfl, rfl⟩

/-- C7 amended: decoding is strict in this variant. Every uppercase ASCII
letter, and each of the excluded letters i, l, o, u that the 64-bit variant
aliases, is rejected by the digit table with InvalidDigit. -/
theorem claim_C7_strict_no_aliases (b : Nat)
    (h : (65 ≤ b ∧ b ≤ 90) ∨ b = 105 ∨ b = 108 ∨ b = 111 ∨ b = 117) :
    map_byte b = .error (.InvalidDigit b) := by
  rcases h with ⟨h1, h2⟩ | h | h | h | h
  · interval_cases b <;> rfl
  · subst h; rfl
  · subst h; rfl
  · subst h; rfl
  · subst h; rfl

/-- C7 witness: uppercase A (byte 65) is rejected. -/
theorem claim_C7_witness : map_byte 65 = .error (.InvalidDigit 65) :=
  claim_C7_strict_no_aliases 65 (Or.inl (by omega))

/-- C8: the claim states decode fails on a separator byte at a data
position. It does not: the hyphen in the last data position of this 22-byte
input is skipped and decoding succeeds. -/
theorem claim_C8_counterexample :
    decode [48, 48, 48, 48, 48, 48, 45, 48, 48, 48, 48, 48, 48, 48, 48, 45,
            48, 48, 48, 48, 48, 45] = .ok 0 := rfl

/-- C8 amended: decode skips the separator byte by literal match wherever
it occurs, not by fixed position: removing a separator byte anywhere from
the byte stream leaves the decode loop's behaviour unchanged. -/
theorem claim_C8_sep_skipped_anywhere (l1 l2 : List Nat) (place n : Nat) :
    decodeLoop (l1 ++ SEP_BYTE :: l2) place n = decodeLoop (l1 ++ l2) place n := by
  induction l1 generalizing place n with
  | nil => simp [decodeLoop]
  | cons byte rest ih =>
    by_cases hsep : byte = SEP_BYTE
    · simp only [List.cons_append, decodeLoop, if_pos hsep]
      exact ih _ _
    · cases hmb : map_byte byte with
      | error e => simp only [List.cons_append, decodeLoop, if_neg hsep, hmb]
      | ok d =>
        simp only [List.cons_append, decodeLoop, if_neg hsep, hmb]
        exact ih _ _

/-- C9: encoding the value 0 yields the 22-character all-zeros string with
the separator byte still present at positions 6 and 15. -/
theorem claim_C9_zero_encoding :
    encode_array 0 = [48, 48, 48, 48, 48, 48, 45, 48, 48, 48, 48, 48, 48, 48,
                      48, 45, 48, 48, 48, 48, 48, 48] := rfl

/-- C10: decode agrees everywhere with the exact-arithmetic variant (the
wrapping u128 accumulation never wraps), and every successfully decoded
value is strictly below 2 ^ 100. -/
theorem claim_C10_no_wrap_and_bounded (input : List Nat) :
    decode input = decode_exact input ∧
    ∀ v, decode input = .ok v → v < 2 ^ 100 := by
  have hmsp : MOST_SIGNIFICANT_POSITION = 2 ^ 95 := by
    norm_num [MOST_SIGNIFICANT_POSITION, STR_LEN, SEP_IDX]
  constructor
  · unfold decode decode_exact
    by_cases h : input.length ≠ STR_LEN
    · rw [if_pos h, if_pos h]
    · rw [if_neg h, if_neg h]
      exact decodeLoop_eq_exact input MOST_SIGNIFICANT_POSITION 0 (by rw [hmsp]; norm_num)
  · intro v hv
    unfold decode at hv
    by_cases h : input.length ≠ STR_LEN
    · rw [if_pos h] at hv
      exact Except.noConfusion hv
    · rw [if_neg h] at hv
      have hb := decodeLoop_ok_le_strict input MOST_SIGNIFICANT_POSITION 0 v
        (by rw [hmsp]; norm_num) hv
      rw [hmsp] at hb
      omega

/-- C10 witness: on the all-zeros string, decode matches the exact variant
and the decoded value 0 is below 2 ^ 100. -/
theorem claim_C10_witness :
    decode ZERO_BUF = decode_exact ZERO_BUF ∧ (0 : Nat) < 2 ^ 100 :=
  ⟨(claim_C10_no_wrap_and_bounded ZERO_BUF).1,
   (claim_C10_no_wrap_and_bounded ZERO_BUF).2 0 rfl⟩

end Ident
